import Mathlib

/-
  Verification development for the line-delimited TCP game client
  (client/main.py).

  The client is embedded shallowly:
  * the TCP byte stream delivered by the server is a `List Nat` of bytes
    (reaching the end of the list models the peer closing the connection);
  * the operator's console lines are a `List String` (Python's `input()`
    cannot return a string containing a newline);
  * `sock.sendall` is modelled by recording the transmitted bytes;
  * an uncaught Python exception (in particular `UnicodeDecodeError` from
    decoding a single received byte) is modelled with `Except`.
-/

/-- The set of characters stripped by Python's `str.strip()` (the characters
`c` with `c.isspace()` true, restricted to the Unicode whitespace code
points: tab, LF, VT, FF, CR, FS, GS, RS, US, space, NEL, NBSP and the
higher Unicode space characters). -/
def pySpace (c : Char) : Bool :=
  c.toNat ∈ [9, 10, 11, 12, 13, 28, 29, 30, 31, 32, 133, 160, 5760,
    8192, 8193, 8194, 8195, 8196, 8197, 8198, 8199, 8200, 8201, 8202,
    8232, 8233, 8239, 8287, 12288]

/-- Python's `str.strip()`: remove leading and trailing whitespace. -/
def pyStrip (cs : List Char) : List Char :=
  ((cs.dropWhile pySpace).reverse.dropWhile pySpace).reverse

/-- UTF-8 encoding of a single Unicode scalar value, as produced by
Python's `str.encode()` for one character. -/
def utf8EncodeChar (c : Char) : List Nat :=
  let n := c.toNat
  if n < 128 then [n]
  else if n < 2048 then [192 + n / 64, 128 + n % 64]
  else if n < 65536 then [224 + n / 4096, 128 + (n / 64) % 64, 128 + n % 64]
  else [240 + n / 262144, 128 + (n / 4096) % 64, 128 + (n / 64) % 64, 128 + n % 64]

/-- UTF-8 encoding of a character sequence (Python's `str.encode()`). -/
def utf8Encode (cs : List Char) : List Nat :=
  (cs.map utf8EncodeChar).flatten

/-- `send_message(sock, message)` from client/main.py: append a newline to
`message` and transmit the UTF-8 encoding of the result.  The returned list
is the byte sequence handed to `sock.sendall`. -/
def send_message (message : String) : List Nat :=
  utf8Encode (message.data ++ ['\n'])

/-- The loop of `receive_message` from client/main.py: while the
accumulated `message` does not end with a newline, receive one byte and
decode it (Python: `sock.recv(1).decode()`).  Decoding a single byte
succeeds exactly when the byte is ASCII (below 128); a non-ASCII byte makes
`bytes.decode` raise `UnicodeDecodeError`, modelled by `Except.error ()`.
If the stream is exhausted (`recv` returns the empty bytes object, i.e. the
peer closed the connection) the function returns `none`.  On success it
returns the accumulated characters (ending in the newline) together with
the bytes not yet consumed. -/
def recvLoop : List Nat → List Char → Except Unit (Option (List Char) × List Nat)
  | stream, message =>
    if message.getLast? = some '\n' then .ok (some message, stream)
    else
      match stream with
      | [] => .ok (none, [])
      | b :: rest =>
        if b < 128 then recvLoop rest (message ++ [Char.ofNat b])
        else .error ()

/-- `receive_message(sock)` from client/main.py: read bytes one at a time
until a newline is seen, then return `message.strip()`; return `None` if
the connection closes first; propagate the `UnicodeDecodeError` raised when
a received byte is not ASCII.  The second component of a successful result
is the part of the stream not yet consumed. -/
def receive_message (stream : List Nat) : Except Unit (Option String × List Nat) :=
  match recvLoop stream [] with
  | .error e => .error e
  | .ok (none, rest) => .ok (none, rest)
  | .ok (some msg, rest) => .ok (some (String.mk (pyStrip msg)), rest)

/-- Modelled from the spec: the peer-side read-until-newline (the server is
referenced only in a comment of client/main.py and its code is not part of
the repository).  Per the spec's wire framing, the peer reads the bytes up
to the first newline delimiter; `none` models the stream closing before a
newline arrives. -/
def readUntilNewline (bytes : List Nat) : Option (List Nat) :=
  if 10 ∈ bytes then some (bytes.takeWhile (fun b => b ≠ 10)) else none

/-- One step of a UTF-8 decoder: read the scalar value of the first
encoded character of the byte list and return it with the remaining
bytes.  It accepts every sequence that `utf8EncodeChar` produces. -/
def utf8DecodeChar1 (bs : List Nat) : Option (Nat × List Nat) :=
  match bs with
  | [] => none
  | b0 :: rest =>
    if b0 < 128 then some (b0, rest)
    else if b0 < 194 then none
    else if b0 < 224 then
      match rest with
      | [] => none
      | b1 :: rest1 =>
        if 128 ≤ b1 ∧ b1 < 192 then
          some ((b0 - 192) * 64 + (b1 - 128), rest1)
        else none
    else if b0 < 240 then
      match rest with
      | b1 :: b2 :: rest2 =>
        if (128 ≤ b1 ∧ b1 < 192) ∧ (128 ≤ b2 ∧ b2 < 192) then
          some ((b0 - 224) * 4096 + (b1 - 128) * 64 + (b2 - 128), rest2)
        else none
      | _ => none
    else
      match rest with
      | b1 :: b2 :: b3 :: rest3 =>
        if (128 ≤ b1 ∧ b1 < 192) ∧ (128 ≤ b2 ∧ b2 < 192) ∧ (128 ≤ b3 ∧ b3 < 192) then
          some ((b0 - 240) * 262144 + (b1 - 128) * 4096 + (b2 - 128) * 64 + (b3 - 128), rest3)
        else none
      | _ => none

/-- Decoder loop with explicit fuel (each decoded character consumes at
least one byte, so fuel equal to the byte count suffices). -/
def utf8DecodeLoop : Nat → List Nat → Option (List Char)
  | _, [] => some []
  | 0, _ :: _ => none
  | fuel + 1, b :: rest =>
    match utf8DecodeChar1 (b :: rest) with
    | none => none
    | some (n, rest2) => (utf8DecodeLoop fuel rest2).map (fun cs => Char.ofNat n :: cs)

/-- A UTF-8 decoder, used to state that the transmitted bytes of a line
determine its text: it inverts `utf8Encode` on every encoded string. -/
def utf8Decode (bs : List Nat) : Option (List Char) :=
  utf8DecodeLoop bs.length bs

/-- `json.dumps` applied to a dictionary with the single key `"attack"` and
an integer value, as built in the attack loop of client/main.py.  With
Python's default separators the serialisation is the brace-delimited object
with a single space after the colon. -/
def jsonAttack (n : Int) : String :=
  "\x7b\"attack\": " ++ toString n ++ "\x7d"

/-- Digit-run parser for Python's `int(str)`: consumes the characters after
the first digit, allowing a single underscore between two digits, and
returns the accumulated value.  (Python also accepts non-ASCII Unicode
decimal digits; the protocol and these claims only involve ASCII input.) -/
def digitsCore : List Char → Nat → Option Nat
  | [], acc => some acc
  | '_' :: rest, acc =>
    match rest with
    | [] => none
    | c :: rest2 =>
      if c.isDigit then digitsCore rest2 (acc * 10 + (c.toNat - 48)) else none
  | c :: rest, acc =>
    if c.isDigit then digitsCore rest (acc * 10 + (c.toNat - 48)) else none

/-- Parse a nonempty digit run (the part of a Python integer literal after
the optional sign): the first character must be a decimal digit. -/
def parseDigits : List Char → Option Nat
  | [] => none
  | c :: rest =>
    if c.isDigit then digitsCore rest (c.toNat - 48) else none

/-- Python's `int(user_input)` as used in the attack loop of
client/main.py: strip surrounding whitespace, accept an optional sign
followed by decimal digits (underscores allowed between digits), and
otherwise raise `ValueError` (modelled by `none`). -/
def pyIntParse (s : String) : Option Int :=
  match pyStrip s.data with
  | '+' :: rest => (parseDigits rest).map (fun m => (m : Int))
  | '-' :: rest => (parseDigits rest).map (fun m => -(m : Int))
  | rest => (parseDigits rest).map (fun m => (m : Int))

/-- One observable I/O action of the client: a completed
`receive_message` call (with its result), a `send_message` call (with the
bytes handed to `sock.sendall`), or a console `print`. -/
inductive Ev where
  | recvEv : Option String → Ev
  | sendEv : List Nat → Ev
  | printEv : String → Ev
  deriving DecidableEq

/-- How the modelled `main` of client/main.py ends. -/
inductive Outcome where
  /-- `data is None` after the username was sent: the lobby-status receive
  saw end-of-stream and `main` returned. -/
  | closedAtLobby
  /-- The lobby line was the sentinel `No room in lobby`: `main` returned. -/
  | noRoom
  /-- A receive inside the attack loop saw end-of-stream and the loop broke. -/
  | closedInLoop
  /-- The operator input list was exhausted at a call to `input()`
  (Python would raise `EOFError` there). -/
  | outOfInput
  /-- A receive decoded a non-ASCII byte: `UnicodeDecodeError` escaped. -/
  | decodeError
  deriving DecidableEq

/-- What `print(receive_message(s))` writes: Python prints the string
`None` when the sentinel is returned, and the line itself otherwise. -/
def shownRecv : Option String → String
  | none => "None"
  | some m => m

/-- Modelled from the spec: the construction `GameClient()` imported from
game.game, whose code is not part of the repository.  The spec describes
the client as a single component whose only I/O is the connection and the
console interaction modelled here, so the construction contributes no
observable events. -/
def GameClient_init : List Ev := []

/-- The `while True` attack loop of client/main.py, given the remaining
operator inputs and the remaining server bytes.  Each iteration reads one
operator input; a non-integer input prints the validation message and
continues; an integer input sends the JSON attack payload as one line and
then receives one line, breaking with the closed-by-server report on
end-of-stream. -/
def attackLoop : List String → List Nat → List Ev × Outcome
  | [], _ => ([], .outOfInput)
  | i :: rest, stream =>
    match pyIntParse i with
    | none =>
      let r := attackLoop rest stream
      (.printEv "Please enter a valid integer." :: r.1, r.2)
    | some n =>
      let pb := send_message (jsonAttack n)
      match receive_message stream with
      | .error _ => ([.sendEv pb], .decodeError)
      | .ok (none, _) =>
        ([.sendEv pb, .recvEv none, .printEv "Connection closed by server."], .closedInLoop)
      | .ok (some d, s2) =>
        let r := attackLoop rest s2
        (.sendEv pb :: .recvEv (some d) :: .printEv ("Received: " ++ d) :: r.1, r.2)

/-- The part of `main()` from client/main.py that starts at
`data = receive_message(s)` after the username was sent: check for
end-of-stream, check for the `No room in lobby` sentinel, otherwise print
the lobby line, construct the `GameClient` and enter the attack loop. -/
def stageLobby (s2 : List Nat) (inputs2 : List String) : List Ev × Outcome :=
  match receive_message s2 with
  | .error _ => ([], .decodeError)
  | .ok (none, _) =>
    ([.recvEv none, .printEv "Connection closed by server."], .closedAtLobby)
  | .ok (some d, s3) =>
    if d = "No room in lobby" then
      ([.recvEv (some d), .printEv "No room in the lobby"], .noRoom)
    else
      let r := attackLoop inputs2 s3
      (.recvEv (some d) :: .printEv d :: (GameClient_init ++ r.1), r.2)

/-- The part of `main()` from client/main.py that starts at the second
`print(receive_message(s))`: print the username prompt, read the username
from the operator and send it, then continue with `stageLobby`. -/
def stageUser (s1 : List Nat) (inputs1 : List String) : List Ev × Outcome :=
  match receive_message s1 with
  | .error _ => ([], .decodeError)
  | .ok (r2, s2) =>
    match inputs1 with
    | [] => ([.recvEv r2, .printEv (shownRecv r2)], .outOfInput)
    | user :: inputs2 =>
      let r := stageLobby s2 inputs2
      (.recvEv r2 :: .printEv (shownRecv r2) :: .sendEv (send_message user) :: r.1, r.2)

/-- The body of `main()` from client/main.py after the connection is
established, as a function of the bytes the server will deliver and the
lines the operator will type.  Returns the trace of I/O events together
with the way the run ends: print the room prompt, read the room name from
the operator and send it, then continue with `stageUser`. -/
def mainRun (stream : List Nat) (inputs : List String) : List Ev × Outcome :=
  match receive_message stream with
  | .error _ => ([], .decodeError)
  | .ok (r1, s1) =>
    match inputs with
    | [] => ([.recvEv r1, .printEv (shownRecv r1)], .outOfInput)
    | room :: inputs1 =>
      let r := stageUser s1 inputs1
      (.recvEv r1 :: .printEv (shownRecv r1) :: .sendEv (send_message room) :: r.1, r.2)

/-- The network half of an event: `some true` for a send, `some false` for
a receive, `none` for console output. -/
def evTag : Ev → Option Bool
  | .sendEv _ => some true
  | .recvEv _ => some false
  | .printEv _ => none

/-- The sequence of network operations of a trace: `true` for each send,
`false` for each receive, console output dropped. -/
def netTags (tr : List Ev) : List Bool :=
  tr.filterMap evTag

/-- A Boolean sequence with no two adjacent equal entries (the sends and
receives strictly alternate). -/
def alternating : List Bool → Bool
  | [] => true
  | [_] => true
  | a :: b :: rest => (a == !b) && alternating (b :: rest)

deriving instance DecidableEq for Except

/-- Every Unicode scalar value is below 0x110000. -/
theorem char_toNat_lt (c : Char) : c.toNat < 1114112 := by
  rcases c.valid with h | ⟨h1, h2⟩ <;> simp [Char.toNat] <;> omega

/-- `Char.ofNat` is a left inverse of `Char.toNat` below the surrogate
range; in particular on ASCII codes. -/
theorem toNat_ofNat_lt (n : Nat) (h : n < 55296) : (Char.ofNat n).toNat = n := by
  have hv : n.isValidChar := Or.inl h
  simp [Char.ofNat, hv, Char.ofNatAux]
  rfl

/-- An ASCII byte other than 10 does not decode to the newline character. -/
theorem ofNat_ne_newline (b : Nat) (hb : b < 128) (hne : b ≠ 10) :
    Char.ofNat b ≠ '\n' := by
  intro h
  have h2 : (Char.ofNat b).toNat = b := toNat_ofNat_lt b (by omega)
  rw [h] at h2
  exact hne (by simpa using h2.symm)

/-- `utf8Encode` distributes over list append. -/
theorem utf8Encode_append (xs ys : List Char) :
    utf8Encode (xs ++ ys) = utf8Encode xs ++ utf8Encode ys := by
  simp [utf8Encode]

/-- `utf8Encode` on a cons. -/
theorem utf8Encode_cons (c : Char) (cs : List Char) :
    utf8Encode (c :: cs) = utf8EncodeChar c ++ utf8Encode cs := by
  simp [utf8Encode]

/-- The newline byte appears in a character's UTF-8 encoding only for the
newline character itself (continuation and leading bytes of longer
encodings are all at least 128). -/
theorem eq_newline_of_ten_mem_utf8EncodeChar (c : Char)
    (h : 10 ∈ utf8EncodeChar c) : c = '\n' := by
  by_cases h1 : c.toNat < 128
  · simp [utf8EncodeChar, h1] at h
    have h2 := Char.ofNat_toNat c
    rw [← h] at h2
    exact h2.symm
  · by_cases h2 : c.toNat < 2048
    · simp [utf8EncodeChar, h1, h2] at h
      rcases h with h | h <;> omega
    · by_cases h3 : c.toNat < 65536
      · simp [utf8EncodeChar, h1, h2, h3] at h
        rcases h with h | h | h <;> omega
      · simp [utf8EncodeChar, h1, h2, h3] at h
        rcases h with h | h | h | h <;> omega

/-- A string without a newline character encodes to bytes without the
newline byte. -/
theorem ten_not_mem_utf8Encode (cs : List Char) (h : '\n' ∉ cs) :
    10 ∉ utf8Encode cs := by
  induction cs with
  | nil => simp [utf8Encode]
  | cons c rest ih =>
    rw [utf8Encode_cons]
    intro hmem
    rcases List.mem_append.mp hmem with hm | hm
    · have hc := eq_newline_of_ten_mem_utf8EncodeChar c hm
      subst hc
      exact h (List.mem_cons_self _ _)
    · exact ih (fun hc => h (List.mem_cons_of_mem c hc)) hm

/-- `takeWhile` over an append whose first part satisfies the predicate
and whose continuation starts with a failing element. -/
theorem takeWhile_append_stop {α : Type} (p : α → Bool) (xs : List α)
    (h : ∀ x ∈ xs, p x = true) (y : α) (ys : List α) (hy : p y = false) :
    List.takeWhile p (xs ++ y :: ys) = xs := by
  induction xs with
  | nil => simp [List.takeWhile_cons, hy]
  | cons a l ih =>
    have ha : p a = true := h a (List.mem_cons_self a l)
    simp only [List.cons_append, List.takeWhile_cons, ha, if_true]
    rw [ih (fun x hx => h x (List.mem_cons_of_mem a hx))]

/-- `utf8EncodeChar` always produces at least one byte. -/
theorem utf8EncodeChar_length_pos (c : Char) : 1 ≤ (utf8EncodeChar c).length := by
  by_cases h1 : c.toNat < 128
  · simp [utf8EncodeChar, h1]
  · by_cases h2 : c.toNat < 2048
    · simp [utf8EncodeChar, h1, h2]
    · by_cases h3 : c.toNat < 65536 <;> simp [utf8EncodeChar, h1, h2, h3]

/-- The one-character decode step inverts the one-character encoder. -/
theorem utf8DecodeChar1_encodeChar (c : Char) (bs : List Nat) :
    utf8DecodeChar1 (utf8EncodeChar c ++ bs) = some (c.toNat, bs) := by
  have hval : c.toNat < 1114112 := char_toNat_lt c
  by_cases h1 : c.toNat < 128
  · have he : utf8EncodeChar c = [c.toNat] := by simp [utf8EncodeChar, h1]
    rw [he, List.cons_append, List.nil_append]
    simp [utf8DecodeChar1, h1]
  · by_cases h2 : c.toNat < 2048
    · have he : utf8EncodeChar c = [192 + c.toNat / 64, 128 + c.toNat % 64] := by
        simp [utf8EncodeChar, h1, h2]
      have hb0a : ¬ (192 + c.toNat / 64 < 128) := by omega
      have hb0b : ¬ (192 + c.toNat / 64 < 194) := by omega
      have hb0c : 192 + c.toNat / 64 < 224 := by omega
      have hb1 : 128 ≤ 128 + c.toNat % 64 ∧ 128 + c.toNat % 64 < 192 := by omega
      have harith : (192 + c.toNat / 64 - 192) * 64 + (128 + c.toNat % 64 - 128) = c.toNat := by
        omega
      rw [he]
      simp only [List.cons_append, List.nil_append]
      simp [utf8DecodeChar1, hb0a, hb0b, hb0c, hb1]
      omega
    · by_cases h3 : c.toNat < 65536
      · have he : utf8EncodeChar c =
            [224 + c.toNat / 4096, 128 + (c.toNat / 64) % 64, 128 + c.toNat % 64] := by
          simp [utf8EncodeChar, h1, h2, h3]
        have hb0a : ¬ (224 + c.toNat / 4096 < 128) := by omega
        have hb0b : ¬ (224 + c.toNat / 4096 < 194) := by omega
        have hb0c : ¬ (224 + c.toNat / 4096 < 224) := by omega
        have hb0d : 224 + c.toNat / 4096 < 240 := by omega
        have hb1 : (128 ≤ 128 + (c.toNat / 64) % 64 ∧ 128 + (c.toNat / 64) % 64 < 192) ∧
            (128 ≤ 128 + c.toNat % 64 ∧ 128 + c.toNat % 64 < 192) := by omega
        have harith : (224 + c.toNat / 4096 - 224) * 4096
            + (128 + (c.toNat / 64) % 64 - 128) * 64 + (128 + c.toNat % 64 - 128) = c.toNat := by
          omega
        rw [he]
        simp only [List.cons_append, List.nil_append]
        simp [utf8DecodeChar1, hb0a, hb0b, hb0c, hb0d, hb1]
        omega
      · have he : utf8EncodeChar c =
            [240 + c.toNat / 262144, 128 + (c.toNat / 4096) % 64,
             128 + (c.toNat / 64) % 64, 128 + c.toNat % 64] := by
          simp [utf8EncodeChar, h1, h2, h3]
        have hb0a : ¬ (240 + c.toNat / 262144 < 128) := by omega
        have hb0b : ¬ (240 + c.toNat / 262144 < 194) := by omega
        have hb0c : ¬ (240 + c.toNat / 262144 < 224) := by omega
        have hb0d : ¬ (240 + c.toNat / 262144 < 240) := by omega
        have hb1 : (128 ≤ 128 + (c.toNat / 4096) % 64 ∧ 128 + (c.toNat / 4096) % 64 < 192) ∧
            (128 ≤ 128 + (c.toNat / 64) % 64 ∧ 128 + (c.toNat / 64) % 64 < 192) ∧
            (128 ≤ 128 + c.toNat % 64 ∧ 128 + c.toNat % 64 < 192) := by omega
        have harith : (240 + c.toNat / 262144 - 240) * 262144
            + (128 + (c.toNat / 4096) % 64 - 128) * 4096
            + (128 + (c.toNat / 64) % 64 - 128) * 64 + (128 + c.toNat % 64 - 128) = c.toNat := by
          omega
        rw [he]
        simp only [List.cons_append, List.nil_append]
        simp [utf8DecodeChar1, hb0a, hb0b, hb0c, hb0d, hb1]
        omega

/-- The decoder loop recovers every encoded string, for any sufficient
fuel. -/
theorem utf8DecodeLoop_utf8Encode (cs : List Char) :
    ∀ fuel, (utf8Encode cs).length ≤ fuel → utf8DecodeLoop fuel (utf8Encode cs) = some cs := by
  induction cs with
  | nil => intro fuel h; cases fuel <;> simp [utf8Encode, utf8DecodeLoop]
  | cons c rest ih =>
    intro fuel h
    have hstep := utf8DecodeChar1_encodeChar c (utf8Encode rest)
    have hlenc := utf8EncodeChar_length_pos c
    rw [utf8Encode_cons] at h ⊢
    rcases hE : utf8EncodeChar c with _ | ⟨e, es⟩
    · rw [hE] at hlenc; simp at hlenc
    · rw [hE] at hstep h
      cases fuel with
      | zero => rw [List.length_append] at h; simp at h
      | succ f =>
        rw [List.cons_append]
        rw [utf8DecodeLoop]
        rw [← List.cons_append, hstep]
        have hrest : (utf8Encode rest).length ≤ f := by
          rw [List.length_append] at h
          simp at h
          omega
        simp [ih f hrest, Char.ofNat_toNat]

/-- The decoder recovers every encoded string. -/
theorem utf8Decode_utf8Encode (cs : List Char) :
    utf8Decode (utf8Encode cs) = some cs :=
  utf8DecodeLoop_utf8Encode cs (utf8Encode cs).length (Nat.le_refl _)

/-- The newline character is Python whitespace. -/
theorem pySpace_newline : pySpace '\n' = true := by decide

/-- Stripping a string that ends in a newline equals stripping the string
without it. -/
theorem pyStrip_append_newline (cs : List Char) :
    pyStrip (cs ++ ['\n']) = pyStrip cs := by
  unfold pyStrip
  rw [List.dropWhile_append]
  by_cases he : (cs.dropWhile pySpace).isEmpty
  · rw [List.isEmpty_iff] at he
    simp [he, pySpace_newline]
  · simp [he, List.reverse_append, pySpace_newline, List.dropWhile_cons]

/-- On an ASCII stream with no newline byte, the `receive_message` loop
consumes the whole stream and reports the connection closed. -/
theorem recvLoop_no_newline (bs : List Nat) :
    ∀ msg : List Char, (∀ b ∈ bs, b < 128) → 10 ∉ bs → msg.getLast? ≠ some '\n' →
      recvLoop bs msg = .ok (none, []) := by
  induction bs with
  | nil =>
    intro msg _ _ hm
    rw [recvLoop.eq_def]
    dsimp only
    rw [if_neg hm]
  | cons b rest ih =>
    intro msg hascii hten hm
    have hb : b < 128 := hascii b (List.mem_cons_self _ _)
    have hbne : b ≠ 10 := fun h => hten (h ▸ List.mem_cons_self _ _)
    have hlast : (msg ++ [Char.ofNat b]).getLast? ≠ some '\n' := by
      rw [List.getLast?_concat]
      simp only [ne_eq, Option.some.injEq]
      exact ofNat_ne_newline b hb hbne
    rw [recvLoop.eq_def]
    dsimp only
    rw [if_neg hm]
    try dsimp only
    rw [if_pos hb]
    exact ih (msg ++ [Char.ofNat b])
      (fun x hx => hascii x (List.mem_cons_of_mem _ hx))
      (fun hx => hten (List.mem_cons_of_mem _ hx)) hlast

/-- On an ASCII line (no newline byte) followed by the newline byte, the
`receive_message` loop consumes exactly the line and its delimiter. -/
theorem recvLoop_line (bs : List Nat) :
    ∀ (msg : List Char) (rest : List Nat), (∀ b ∈ bs, b < 128) → 10 ∉ bs →
      msg.getLast? ≠ some '\n' →
      recvLoop (bs ++ 10 :: rest) msg = .ok (some (msg ++ bs.map Char.ofNat ++ ['\n']), rest) := by
  induction bs with
  | nil =>
    intro msg rest _ _ hm
    rw [List.nil_append, recvLoop.eq_def]
    dsimp only
    rw [if_neg hm]
    try dsimp only
    rw [if_pos (by omega : (10 : Nat) < 128)]
    have hlast : (msg ++ [Char.ofNat 10]).getLast? = some '\n' := by
      rw [List.getLast?_concat]
    rw [recvLoop.eq_def]
    dsimp only
    rw [if_pos hlast]
    simp
  | cons b bs2 ih =>
    intro msg rest hascii hten hm
    have hb : b < 128 := hascii b (List.mem_cons_self _ _)
    have hbne : b ≠ 10 := fun h => hten (h ▸ List.mem_cons_self _ _)
    have hlast : (msg ++ [Char.ofNat b]).getLast? ≠ some '\n' := by
      rw [List.getLast?_concat]
      simp only [ne_eq, Option.some.injEq]
      exact ofNat_ne_newline b hb hbne
    rw [List.cons_append, recvLoop.eq_def]
    dsimp only
    rw [if_neg hm]
    try dsimp only
    rw [if_pos hb]
    rw [ih (msg ++ [Char.ofNat b]) rest
      (fun x hx => hascii x (List.mem_cons_of_mem _ hx))
      (fun hx => hten (List.mem_cons_of_mem _ hx)) hlast]
    simp

/-- `receive_message` on an ASCII stream that is closed before any newline
byte: the sentinel is returned and the whole stream was consumed. -/
theorem receive_message_closed_ascii (bs : List Nat)
    (hascii : ∀ b ∈ bs, b < 128) (hten : 10 ∉ bs) :
    receive_message bs = .ok (none, []) := by
  have h := recvLoop_no_newline bs [] hascii hten (by simp)
  simp [receive_message, h]

/-- `receive_message` on an ASCII line followed by its newline delimiter:
the stripped line is returned and exactly the line and the delimiter are
consumed. -/
theorem receive_message_line (bs rest : List Nat)
    (hascii : ∀ b ∈ bs, b < 128) (hten : 10 ∉ bs) :
    receive_message (bs ++ 10 :: rest) =
      .ok (some (String.mk (pyStrip (bs.map Char.ofNat))), rest) := by
  have h := recvLoop_line bs [] rest hascii hten (by simp)
  rw [List.nil_append] at h
  simp [receive_message, h, pyStrip_append_newline]

/-- `netTags` distributes over append. -/
theorem netTags_append (a b : List Ev) : netTags (a ++ b) = netTags a ++ netTags b := by
  simp [netTags]

/-- Prepending an entry different from the head of an alternating sequence
keeps it alternating. -/
theorem alternating_cons (a : Bool) (l : List Bool) (h1 : alternating l = true)
    (h2 : l.head?.getD (!a) = !a) : alternating (a :: l) = true := by
  cases l with
  | nil => rfl
  | cons b t =>
    simp only [List.head?_cons, Option.getD_some] at h2
    subst h2
    simp [alternating, h1]

/-- The network operations of every attack-loop trace alternate starting
with a send. -/
theorem attackLoop_netTags (inputs : List String) :
    ∀ stream, alternating (netTags (attackLoop inputs stream).1) = true ∧
      (netTags (attackLoop inputs stream).1).head?.getD true = true := by
  induction inputs with
  | nil => intro stream; simp [attackLoop, netTags, alternating]
  | cons i rest ih =>
    intro stream
    rw [attackLoop]
    cases hp : pyIntParse i with
    | none =>
      simp only [hp]
      simpa [netTags, evTag] using ih stream
    | some n =>
      simp only [hp]
      cases hr : receive_message stream with
      | error e => simp [hr, netTags, evTag, alternating]
      | ok p =>
        rcases p with ⟨_ | d, s2⟩
        · simp [hr, netTags, evTag, alternating]
        · have ihs := ih s2
          simp only [hr, netTags, evTag, List.filterMap_cons]
          refine ⟨?_, rfl⟩
          have hfalse : alternating (false :: (attackLoop rest s2).1.filterMap evTag) = true := by
            refine alternating_cons false _ ?_ ?_
            · simpa [netTags] using ihs.1
            · simpa [netTags] using ihs.2
          simpa [alternating] using hfalse

/-- The network operations of every `stageLobby` trace alternate starting
with a receive. -/
theorem stageLobby_netTags (s2 : List Nat) (inputs2 : List String) :
    alternating (netTags (stageLobby s2 inputs2).1) = true ∧
      (netTags (stageLobby s2 inputs2).1).head?.getD false = false := by
  cases hr : receive_message s2 with
  | error e => simp [stageLobby, hr, netTags, alternating]
  | ok p =>
    rcases p with ⟨_ | d, s3⟩
    · simp [stageLobby, hr, netTags, evTag, alternating]
    · by_cases hd : d = "No room in lobby"
      · simp [stageLobby, hr, hd, netTags, evTag, alternating]
      · have hal := attackLoop_netTags inputs2 s3
        simp only [stageLobby, hr, hd, if_false, GameClient_init, List.nil_append,
          netTags, evTag, List.filterMap_cons]
        refine ⟨?_, rfl⟩
        refine alternating_cons false _ ?_ ?_
        · simpa [netTags] using hal.1
        · simpa [netTags] using hal.2

/-- The network operations of every `stageUser` trace alternate starting
with a receive. -/
theorem stageUser_netTags (s1 : List Nat) (inputs1 : List String) :
    alternating (netTags (stageUser s1 inputs1).1) = true ∧
      (netTags (stageUser s1 inputs1).1).head?.getD false = false := by
  cases hr : receive_message s1 with
  | error e => simp [stageUser, hr, netTags, alternating]
  | ok p =>
    rcases p with ⟨r2, s2⟩
    cases inputs1 with
    | nil => simp [stageUser, hr, netTags, evTag, alternating]
    | cons user inputs2 =>
      have hlob := stageLobby_netTags s2 inputs2
      simp only [stageUser, hr, netTags, evTag, List.filterMap_cons]
      refine ⟨?_, rfl⟩
      have htrue : alternating (true :: (stageLobby s2 inputs2).1.filterMap evTag) = true := by
        refine alternating_cons true _ ?_ ?_
        · simpa [netTags] using hlob.1
        · simpa [netTags] using hlob.2
      simpa [alternating] using htrue

example : receive_message [104, 105, 10, 65] = .ok (some "hi", [65]) := by decide
example : receive_message [32, 104, 105, 10] = .ok (some "hi", []) := by decide
example : receive_message [104, 105] = .ok (none, []) := by decide
example : receive_message [195] = .error () := by decide
example : send_message "hi" = [104, 105, 10] := by decide
example : pyIntParse "7" = some 7 := by decide
example : pyIntParse " -12 " = some (-12) := by decide
example : pyIntParse "1_0" = some 10 := by decide
example : pyIntParse "1__0" = none := by decide
example : pyIntParse "abc" = none := by decide
example : pyIntParse "" = none := by decide
example : jsonAttack 7 = String.mk [Char.ofNat 123, '"', 'a', 't', 't', 'a', 'c', 'k', '"', ':', ' ', '7', Char.ofNat 125] := by decide
example : utf8Decode (utf8Encode ['h', 'é', '\n']) = some ['h', 'é', '\n'] := by decide

/-- C1: for every string `s` without an embedded newline, `send_message`
transmits exactly the UTF-8 bytes of `s` followed by a single newline
byte; the peer-side read-until-newline yields exactly those bytes, and
decoding them recovers `s` unchanged (round-trip framing property). -/
theorem claim_C1_roundtrip (s : String) (h : '\n' ∉ s.data) :
    send_message s = utf8Encode s.data ++ [10]
    ∧ readUntilNewline (send_message s) = some (utf8Encode s.data)
    ∧ utf8Decode (utf8Encode s.data) = some s.data := by
  have henc : send_message s = utf8Encode s.data ++ [10] := by
    rw [send_message, utf8Encode_append]
    rfl
  have hten : ∀ b ∈ utf8Encode s.data, b ≠ 10 :=
    fun b hb he => ten_not_mem_utf8Encode s.data h (he ▸ hb)
  refine ⟨henc, ?_, utf8Decode_utf8Encode s.data⟩
  rw [henc, readUntilNewline,
    if_pos (by simp : (10 : Nat) ∈ utf8Encode s.data ++ [10])]
  have hsplit : utf8Encode s.data ++ [10] = utf8Encode s.data ++ 10 :: [] := rfl
  rw [hsplit, takeWhile_append_stop _ _ (fun x hx => decide_eq_true (hten x hx)) 10 []
    (by simp)]

/-- C1 witness at the string hello. -/
theorem claim_C1_roundtrip_witness :
    ('\n' ∉ ("hello" : String).data)
    ∧ (send_message "hello" = utf8Encode ("hello" : String).data ++ [10]
      ∧ readUntilNewline (send_message "hello") = some (utf8Encode ("hello" : String).data)
      ∧ utf8Decode (utf8Encode ("hello" : String).data) = some ("hello" : String).data) :=
  ⟨by decide, claim_C1_roundtrip "hello" (by decide)⟩

/-- C9: every transmitted unit is one well-framed line: for a message
without an embedded newline (the data model's invariant for messages, and
true of every argument the client passes), the bytes handed to `sendall`
are the message bytes followed by exactly one newline byte, and no newline
byte occurs before the terminator. -/
theorem claim_C9_wellframed (message : String) (h : '\n' ∉ message.data) :
    send_message message = utf8Encode message.data ++ [10]
    ∧ 10 ∉ utf8Encode message.data := by
  constructor
  · rw [send_message, utf8Encode_append]
    rfl
  · exact ten_not_mem_utf8Encode message.data h

/-- C9 witness at the string hi. -/
theorem claim_C9_wellframed_witness :
    ('\n' ∉ ("hi" : String).data)
    ∧ (send_message "hi" = utf8Encode ("hi" : String).data ++ [10]
      ∧ 10 ∉ utf8Encode ("hi" : String).data) :=
  ⟨by decide, claim_C9_wellframed "hi" (by decide)⟩

/-- C4: evaluation at the failing input.  On the byte stream that delivers
the single byte 195 (the first byte of a two-byte UTF-8 character) and is
then closed before any newline, `receive_message` does not return the
end-of-stream sentinel: decoding the lone byte raises `UnicodeDecodeError`
(the error value), contradicting the claim that it never raises. -/
theorem claim_C4_nonascii_raises :
    receive_message [195] = Except.error ()
    ∧ receive_message [195] ≠ Except.ok (none, []) := by decide

/-- C5 counterexample: the stream delivering the line consisting of a
space, h, i and the newline.  `receive_message` returns the string hi with
the leading space removed (Python's `strip()` trims both ends), not the
line with only trailing whitespace trimmed. -/
theorem claim_C5_counterexample :
    receive_message [32, 104, 105, 10] = .ok (some "hi", [])
    ∧ ("hi" : String) ≠ " hi" := by decide

/-- C5 (amended): for every delivered ASCII line, `receive_message`
returns the line with the trailing newline removed and ALL surrounding
whitespace trimmed - trailing and also leading - and consumes exactly
the line and its delimiter. -/
theorem claim_C5_strip_both_ends (bs rest : List Nat)
    (hascii : ∀ b ∈ bs, b < 128) (hten : 10 ∉ bs) :
    receive_message (bs ++ 10 :: rest) =
      .ok (some (String.mk (pyStrip (bs.map Char.ofNat))), rest) :=
  receive_message_line bs rest hascii hten

/-- C5 witness at the line consisting of a space, h, i, newline, followed
by one further byte. -/
theorem claim_C5_strip_both_ends_witness :
    ((∀ b ∈ ([32, 104, 105] : List Nat), b < 128) ∧ 10 ∉ ([32, 104, 105] : List Nat))
    ∧ receive_message ([32, 104, 105] ++ 10 :: [66]) =
      .ok (some (String.mk (pyStrip (([32, 104, 105] : List Nat).map Char.ofNat))), [66]) :=
  ⟨by decide, claim_C5_strip_both_ends [32, 104, 105] [66] (by decide) (by decide)⟩

/-- C10 counterexample: the stream delivers the bytes 97 and 195 and is
then closed before any newline; `receive_message` raises on the non-ASCII
byte instead of returning the end-of-stream sentinel. -/
theorem claim_C10_counterexample :
    receive_message [97, 195] = Except.error ()
    ∧ receive_message [97, 195] ≠ Except.ok (none, []) := by decide

/-- C10 (amended): for an ASCII byte stream that delivers one or more
bytes and is closed before any newline, `receive_message` returns the
end-of-stream sentinel and discards the partial bytes: they are not part
of the result, the whole stream is consumed, and a later call on the
closed stream returns the sentinel again, never the partial bytes. -/
theorem claim_C10_partial_discarded (bs : List Nat) (_hne : bs ≠ [])
    (hascii : ∀ b ∈ bs, b < 128) (hten : 10 ∉ bs) :
    receive_message bs = .ok (none, []) ∧ receive_message [] = .ok (none, []) :=
  ⟨receive_message_closed_ascii bs hascii hten, by decide⟩

/-- C10 witness at the one-byte stream 97. -/
theorem claim_C10_partial_discarded_witness :
    (([97] : List Nat) ≠ [] ∧ (∀ b ∈ ([97] : List Nat), b < 128) ∧ 10 ∉ ([97] : List Nat))
    ∧ (receive_message [97] = .ok (none, []) ∧ receive_message [] = .ok (none, [])) :=
  ⟨by decide, claim_C10_partial_discarded [97] (by decide) (by decide) (by decide)⟩

/-- C7: non-integer operator input never produces a network write.  First
conjunct: on an input that `int()` rejects, the loop iteration only prints
the validation message and continues with the remaining inputs - no event
of the iteration is a send.  Second conjunct: every send in an attack-loop
trace is the JSON attack payload of some input that parsed as an integer;
hence if no input parses, nothing is ever sent. -/
theorem claim_C7_local_validation :
    (∀ (i : String) (rest : List String) (stream : List Nat), pyIntParse i = none →
      attackLoop (i :: rest) stream =
        (Ev.printEv "Please enter a valid integer." :: (attackLoop rest stream).1,
          (attackLoop rest stream).2))
    ∧ (∀ (inputs : List String) (stream : List Nat) (b : List Nat),
        Ev.sendEv b ∈ (attackLoop inputs stream).1 →
        ∃ i, i ∈ inputs ∧ ∃ n, pyIntParse i = some n ∧ b = send_message (jsonAttack n)) := by
  constructor
  · intro i rest stream h
    rw [attackLoop]
    simp [h]
  · intro inputs
    induction inputs with
    | nil => intro stream b h; simp [attackLoop] at h
    | cons i rest ih =>
      intro stream b h
      rw [attackLoop] at h
      cases hp : pyIntParse i with
      | none =>
        simp only [hp, List.mem_cons] at h
        rcases h with h | h
        · exact absurd h (by simp)
        · obtain ⟨i2, hi2, n, hn, hb⟩ := ih stream b h
          exact ⟨i2, List.mem_cons_of_mem _ hi2, n, hn, hb⟩
      | some n =>
        simp only [hp] at h
        cases hr : receive_message stream with
        | error e =>
          simp only [hr, List.mem_cons, List.not_mem_nil, or_false] at h
          simp only [Ev.sendEv.injEq] at h
          exact ⟨i, List.mem_cons_self _ _, n, hp, h⟩
        | ok p =>
          rcases p with ⟨_ | d, s2⟩
          · simp only [hr, List.mem_cons] at h
            rcases h with h | h | h
            · simp only [Ev.sendEv.injEq] at h
              exact ⟨i, List.mem_cons_self _ _, n, hp, h⟩
            · exact absurd h (by simp)
            · simp at h
          · simp only [hr, List.mem_cons] at h
            rcases h with h | h | h | h
            · simp only [Ev.sendEv.injEq] at h
              exact ⟨i, List.mem_cons_self _ _, n, hp, h⟩
            · exact absurd h (by simp)
            · exact absurd h (by simp)
            · obtain ⟨i2, hi2, n2, hn2, hb⟩ := ih s2 b h
              exact ⟨i2, List.mem_cons_of_mem _ hi2, n2, hn2, hb⟩

/-- C7 witness: the non-integer input x only prints and continues, and the
send produced by the input 7 is the JSON payload of a parsed integer. -/
theorem claim_C7_local_validation_witness :
    (pyIntParse "x" = none
      ∧ attackLoop ["x", "7"] [] =
        (Ev.printEv "Please enter a valid integer." :: (attackLoop ["7"] []).1,
          (attackLoop ["7"] []).2))
    ∧ (Ev.sendEv (send_message (jsonAttack 7)) ∈ (attackLoop ["7"] []).1
      ∧ ∃ i, i ∈ (["7"] : List String) ∧ ∃ n, pyIntParse i = some n
          ∧ send_message (jsonAttack 7) = send_message (jsonAttack n)) :=
  ⟨⟨by decide, claim_C7_local_validation.1 "x" ["7"] [] (by decide)⟩,
    ⟨by decide, claim_C7_local_validation.2 ["7"] [] (send_message (jsonAttack 7)) (by decide)⟩⟩

/-- C8: in every run of the client, the completed network operations
strictly alternate between receives and sends, and the first network
operation (when there is one) is a receive: the filtered send/receive
sequence of the trace has no two adjacent equal entries and starts with a
receive. -/
theorem claim_C8_strict_alternation (stream : List Nat) (inputs : List String) :
    alternating (netTags (mainRun stream inputs).1) = true
    ∧ (netTags (mainRun stream inputs).1).head?.getD false = false := by
  cases hr : receive_message stream with
  | error e => simp [mainRun, hr, netTags, alternating]
  | ok p =>
    rcases p with ⟨r1, s1⟩
    cases inputs with
    | nil => simp [mainRun, hr, netTags, evTag, alternating]
    | cons room inputs1 =>
      have hu := stageUser_netTags s1 inputs1
      simp only [mainRun, hr, netTags, evTag, List.filterMap_cons]
      refine ⟨?_, rfl⟩
      have htrue : alternating (true :: (stageUser s1 inputs1).1.filterMap evTag) = true := by
        refine alternating_cons true _ ?_ ?_
        · simpa [netTags] using hu.1
        · simpa [netTags] using hu.2
      simpa [alternating] using htrue

/-- C3: given the server lines room prompt, username prompt and the
sentinel line No room in lobby, the client receives and prints each line,
sends exactly two lines - the room name and the username - reports the
rejection and terminates without ever reaching the attack loop. -/
theorem claim_C3_lobby_rejection (room user : String) :
    mainRun
      (utf8Encode ("Please enter your room name:" : String).data ++ 10 ::
        (utf8Encode ("Please enter your username:" : String).data ++ 10 ::
          (utf8Encode ("No room in lobby" : String).data ++ 10 :: ([] : List Nat))))
      [room, user] =
    ([Ev.recvEv (some "Please enter your room name:"),
      Ev.printEv "Please enter your room name:",
      Ev.sendEv (send_message room),
      Ev.recvEv (some "Please enter your username:"),
      Ev.printEv "Please enter your username:",
      Ev.sendEv (send_message user),
      Ev.recvEv (some "No room in lobby"),
      Ev.printEv "No room in the lobby"], Outcome.noRoom) := by
  have h1 : receive_message
      (utf8Encode ("Please enter your room name:" : String).data ++ 10 ::
        (utf8Encode ("Please enter your username:" : String).data ++ 10 ::
          (utf8Encode ("No room in lobby" : String).data ++ 10 :: ([] : List Nat)))) =
      .ok (some "Please enter your room name:",
        utf8Encode ("Please enter your username:" : String).data ++ 10 ::
          (utf8Encode ("No room in lobby" : String).data ++ 10 :: ([] : List Nat))) := by
    decide
  have h2 : receive_message
      (utf8Encode ("Please enter your username:" : String).data ++ 10 ::
        (utf8Encode ("No room in lobby" : String).data ++ 10 :: ([] : List Nat))) =
      .ok (some "Please enter your username:",
        utf8Encode ("No room in lobby" : String).data ++ 10 :: ([] : List Nat)) := by
    decide
  have h3 : receive_message
      (utf8Encode ("No room in lobby" : String).data ++ 10 :: ([] : List Nat)) =
      .ok (some "No room in lobby", []) := by
    decide
  simp [mainRun, stageUser, stageLobby, h1, h2, h3, shownRecv]

/-- C2: after a successful lobby line, operator input 7 makes the attack
loop transmit exactly one line, whose bytes are the JSON object with the
single key attack and value 7 followed by one newline; the next receive
sees end-of-stream, the client prints the closed-by-server report, and no
further event - in particular no further send - occurs before the loop
terminates. -/
theorem claim_C2_attack_round (room user : String) :
    mainRun
      (utf8Encode ("Please enter your room name:" : String).data ++ 10 ::
        (utf8Encode ("Please enter your username:" : String).data ++ 10 ::
          (utf8Encode ("Welcome" : String).data ++ 10 :: ([] : List Nat))))
      [room, user, "7"] =
    ([Ev.recvEv (some "Please enter your room name:"),
      Ev.printEv "Please enter your room name:",
      Ev.sendEv (send_message room),
      Ev.recvEv (some "Please enter your username:"),
      Ev.printEv "Please enter your username:",
      Ev.sendEv (send_message user),
      Ev.recvEv (some "Welcome"),
      Ev.printEv "Welcome",
      Ev.sendEv (send_message (jsonAttack 7)),
      Ev.recvEv none,
      Ev.printEv "Connection closed by server."], Outcome.closedInLoop)
    ∧ send_message (jsonAttack 7) =
      [123, 34, 97, 116, 116, 97, 99, 107, 34, 58, 32, 55, 125, 10] := by
  constructor
  · have h1 : receive_message
        (utf8Encode ("Please enter your room name:" : String).data ++ 10 ::
          (utf8Encode ("Please enter your username:" : String).data ++ 10 ::
            (utf8Encode ("Welcome" : String).data ++ 10 :: ([] : List Nat)))) =
        .ok (some "Please enter your room name:",
          utf8Encode ("Please enter your username:" : String).data ++ 10 ::
            (utf8Encode ("Welcome" : String).data ++ 10 :: ([] : List Nat))) := by
      decide
    have h2 : receive_message
        (utf8Encode ("Please enter your username:" : String).data ++ 10 ::
          (utf8Encode ("Welcome" : String).data ++ 10 :: ([] : List Nat))) =
        .ok (some "Please enter your username:",
          utf8Encode ("Welcome" : String).data ++ 10 :: ([] : List Nat)) := by
      decide
    have h3 : receive_message
        (utf8Encode ("Welcome" : String).data ++ 10 :: ([] : List Nat)) =
        .ok (some "Welcome", []) := by
      decide
    have h4 : receive_message ([] : List Nat) = .ok (none, []) := by decide
    have hne : ¬ (("Welcome" : String) = "No room in lobby") := by decide
    have hp : pyIntParse "7" = some 7 := by decide
    simp [mainRun, stageUser, stageLobby, attackLoop, GameClient_init,
      h1, h2, h3, h4, hne, hp, shownRecv]
  · decide

/-- C6 counterexample: the stream is closed before the room-name prompt
(the empty byte stream), yet the client does not terminate without further
sends: it still sends the operator's room name (and username).  The trace
of the run on operator inputs alice and bob contains a send event. -/
theorem claim_C6_counterexample :
    Ev.sendEv (send_message "alice") ∈ (mainRun ([] : List Nat) ["alice", "bob"]).1
    ∧ (mainRun ([] : List Nat) ["alice", "bob"]).2 = Outcome.closedAtLobby := by decide

/-- C6 (amended): end-of-stream is treated as a terminal condition only at
the lobby-status receive (and inside the attack loop), not at the first
two receives.  If the stream is closed before the room prompt, the client
prints the sentinel text None, still sends the room name, prints None
again, still sends the username, and only then terminates with the
closed-by-server report; if the stream closes after the room prompt, the
same happens from the username receive on.  In both cases the run does end
normally (no exception), but only after the two handshake sends. -/
theorem claim_C6_eof_handling (room user : String) :
    mainRun ([] : List Nat) [room, user] =
      ([Ev.recvEv none, Ev.printEv "None", Ev.sendEv (send_message room),
        Ev.recvEv none, Ev.printEv "None", Ev.sendEv (send_message user),
        Ev.recvEv none, Ev.printEv "Connection closed by server."], Outcome.closedAtLobby)
    ∧ mainRun (utf8Encode ("Please enter your room name:" : String).data ++ [10]) [room, user] =
      ([Ev.recvEv (some "Please enter your room name:"),
        Ev.printEv "Please enter your room name:", Ev.sendEv (send_message room),
        Ev.recvEv none, Ev.printEv "None", Ev.sendEv (send_message user),
        Ev.recvEv none, Ev.printEv "Connection closed by server."], Outcome.closedAtLobby) := by
  have h0 : receive_message ([] : List Nat) = .ok (none, []) := by decide
  have h1 : receive_message
      (utf8Encode ("Please enter your room name:" : String).data ++ [10]) =
      .ok (some "Please enter your room name:", []) := by decide
  constructor
  · simp [mainRun, stageUser, stageLobby, h0, shownRecv]
  · simp [mainRun, stageUser, stageLobby, h0, h1, shownRecv]
